import Mathlib

/-!
Verification of the client-side script `app/static/js/main.js` of the
BazaarHub (VendorBuyer) repository.

The file holds two variants of the script.  The first (current) variant has a
server-contacting logout; the second (older) variant has a purely client-side
logout.  Both variants share the toast notifier, the validators and the
profile-dropdown controller.  Every definition below is a shallow embedding of
a concrete piece of that JavaScript source; the doc comment of each definition
names the function and lines it embeds.
-/

namespace BazaarHub

/-! ### Dropdown state

The dropdown's visible state lives in CSS classes on two DOM nodes:
`dropdown-open` on the container `.profile-dropdown` (written by
`showDropdown` / `hideDropdown`) and `show` on the menu
`.custom-dropdown-menu` (read by `handleToggleClick`, never written by this
script).  A state records the presence of each class. -/
structure DropdownState where
  /-- the container `.profile-dropdown` carries class `dropdown-open` -/
  containerOpen : Bool
  /-- the menu `.custom-dropdown-menu` carries class `show` -/
  menuShow : Bool
deriving DecidableEq, Repr

/-- Embeds `showDropdown` (main.js lines 187-192): adds the class
`dropdown-open` to the container. -/
def showDropdown (s : DropdownState) : DropdownState :=
  { s with containerOpen := true }

/-- Embeds `hideDropdown` (main.js lines 194-199): removes the class
`dropdown-open` from the container. -/
def hideDropdown (s : DropdownState) : DropdownState :=
  { s with containerOpen := false }

/-- Embeds `handleToggleClick` (main.js lines 107-119): reads
`isOpen = dropdownMenu.classList.contains('show')` and calls `hideDropdown`
when it is set, `showDropdown` otherwise.  Note the test is on the menu's
`show` class, while `showDropdown`/`hideDropdown` write the container's
`dropdown-open` class. -/
def handleToggleClick (s : DropdownState) : DropdownState :=
  if s.menuShow then hideDropdown s else showDropdown s

/-- Embeds `handleDocumentClick` (main.js lines 125-129): when the click
target is contained in neither the menu nor the toggle, call `hideDropdown`;
otherwise do nothing.  `targetInMenu` and `targetInToggle` are the values of
`dropdownMenu.contains(e.target)` and `dropdownToggle.contains(e.target)`. -/
def handleDocumentClick (targetInMenu targetInToggle : Bool) (s : DropdownState) :
    DropdownState :=
  if !targetInMenu && !targetInToggle then hideDropdown s else s

/-- Embeds `handleEscapeKey` (main.js lines 165-169): when `e.key` equals
`"Escape"` and the container carries `dropdown-open`, call `hideDropdown`. -/
def handleEscapeKey (key : String) (s : DropdownState) : DropdownState :=
  if key == "Escape" && s.containerOpen then hideDropdown s else s

/-! ### Toast notifier

`showToast` (main.js lines 1-22) creates one `div`, appends it to the element
`#toast-container`, schedules `toast.remove()` after 5000 ms, and wires the
same `toast.remove()` on the close button.  The container is modelled as the
list of its child nodes, each node named by a number; `document.createElement`
yields a node that is not yet in the document, so a call receives a fresh node
name `n` with `n ∉ c`. -/

/-- The observable effects of one `showToast` call: the container's children
after `appendChild`, the delay of the scheduled auto-removal, and the node
removed by the timer and by the close-button handler (both `toast.remove()`). -/
structure ToastCall where
  container : List Nat
  timerDelay : Nat
  timerTarget : Nat
  dismissTarget : Nat
deriving DecidableEq, Repr

/-- Embeds the body of `showToast` (main.js lines 2-22) given the container's
children `c` and the freshly created node `n`:
`toastContainer.appendChild(toast)`, `setTimeout(() => toast.remove(), 5000)`,
and the close-button click handler `() => toast.remove()`. -/
def showToast (c : List Nat) (n : Nat) : ToastCall :=
  ⟨c ++ [n], 5000, n, n⟩

/-- Embeds `toast.remove()` (main.js lines 15 and 20): detaches the node from
its parent; on a node that is no longer attached it is a no-op (DOM
`ChildNode.remove` never throws). -/
def removeNode (n : Nat) (c : List Nat) : List Nat :=
  c.erase n

/-- Embeds the lookup-then-append head of `showToast` (main.js lines 3 and
11): `document.getElementById('toast-container')` yields `none` when the
container is absent, and `null.appendChild` then throws a lookup error that
`showToast` does not catch. -/
inductive DomError where
  | nullLookup
deriving DecidableEq, Repr

/-- `showToast` as called through the container lookup: with no container
element the call fails with the unhandled lookup error, otherwise it performs
the `showToast` effects and returns no value. -/
def showToastChecked (container : Option (List Nat)) (n : Nat) :
    Except DomError ToastCall :=
  match container with
  | none => .error .nullLookup
  | some c => .ok (showToast c n)

/-! ### Logout (current, server-contacting variant)

`performLogout` (main.js lines 201-227, first document) issues
`fetch('/logout', {method:'GET', credentials:'same-origin'})`; on `response.ok`
it expires the `session_id` cookie, shows a success toast and schedules
navigation to `/` after 1500 ms; on a non-OK response or a rejected fetch it
shows an error toast.  The fetch outcome is the function's only input. -/

/-- The request `fetch('/logout', ...)` sends (main.js lines 203-206). -/
structure FetchRequest where
  method : String
  url : String
  credentials : String
deriving DecidableEq, Repr

/-- Outcome of the `/logout` fetch: an OK-class response (`response.ok`), a
non-OK response, or a network error (rejected promise, `.catch` branch). -/
inductive FetchOutcome where
  | ok
  | httpError
  | networkError
deriving DecidableEq, Repr

/-- Observable effects of one `performLogout` call. -/
structure LogoutResult where
  request : FetchRequest
  /-- cookies expired client-side (`document.cookie = '... expires ...'`) -/
  clearedCookies : List String
  /-- toasts shown, as (message, type) pairs -/
  toasts : List (String × String)
  /-- scheduled navigation, as (url, delay in ms) -/
  navigation : Option (String × Nat)
deriving DecidableEq, Repr

/-- Embeds `performLogout` (main.js lines 201-227, first document), branch by
branch on the fetch outcome. -/
def performLogout (o : FetchOutcome) : LogoutResult :=
  match o with
  | .ok =>
      { request := ⟨"GET", "/logout", "same-origin"⟩
        clearedCookies := ["session_id"]
        toasts := [("You have been logged out successfully", "success")]
        navigation := some ("/", 1500) }
  | .httpError =>
      { request := ⟨"GET", "/logout", "same-origin"⟩
        clearedCookies := []
        toasts := [("Logout failed. Please try again.", "error")]
        navigation := none }
  | .networkError =>
      { request := ⟨"GET", "/logout", "same-origin"⟩
        clearedCookies := []
        toasts := [("Logout failed. Please try again.", "error")]
        navigation := none }

/-- Embeds the superseded `performLogout` variant (main.js lines 404-416,
second document): no server contact at all, it unconditionally expires the
`user_email` and `user_session` cookies, shows the success toast and schedules
navigation to `/` after 1500 ms.  Modelled with `request := none` to record
that it never issues an HTTP request. -/
def performLogoutClientOnly :
    Option FetchRequest × List String × List (String × String) × Option (String × Nat) :=
  (none, ["user_email", "user_session"],
    [("You have been logged out successfully", "success")], some ("/", 1500))

/-! ### Listener bindings and cleanup

`initializeProfileDropdown` (main.js lines 85-185) registers five DOM event
listeners: the toggle click handler (line 121), the document click handler
(line 132), the logout button handler (line 143), the profile link handler
(line 152) and the document keydown handler (line 170).  `cleanupDropdown`
(lines 176-184) removes three of them.  The set of live registrations is
modelled as a list of `Listener` records; `addEventListener` with an already
registered identical (target, type, handler, capture) tuple is a no-op, and
`removeEventListener` removes a matching registration if present and is a
no-op (never an error) otherwise — standard DOM semantics. -/

/-- The DOM nodes listeners are attached to. -/
inductive Target where
  | doc
  | toggle
  | logoutBtn
  | profileBtn
deriving DecidableEq, Repr

/-- The handler functions the script registers. -/
inductive Handler where
  | toggleClick
  | docClick
  | escapeKey
  | logoutClick
  | profileClick
deriving DecidableEq, Repr

/-- One live event-listener registration. -/
structure Listener where
  target : Target
  event : String
  handler : Handler
  capture : Bool
deriving DecidableEq, Repr

/-- DOM `addEventListener`: appending a registration, a no-op when the same
tuple is already registered. -/
def addEventListener (l : Listener) (s : List Listener) : List Listener :=
  if l ∈ s then s else s ++ [l]

/-- DOM `removeEventListener`: removes the matching registration when present,
otherwise a no-op; it never throws. -/
def removeEventListener (l : Listener) (s : List Listener) : List Listener :=
  s.erase l

/-- The registrations made by `initializeProfileDropdown` (main.js lines
121, 132, 143, 152, 170) in source order, starting from a document with no
listeners and all five elements present. -/
def initListeners : List Listener :=
  addEventListener ⟨.doc, "keydown", .escapeKey, true⟩
    (addEventListener ⟨.profileBtn, "click", .profileClick, false⟩
      (addEventListener ⟨.logoutBtn, "click", .logoutClick, false⟩
        (addEventListener ⟨.doc, "click", .docClick, true⟩
          (addEventListener ⟨.toggle, "click", .toggleClick, true⟩ []))))

/-- Embeds `cleanupDropdown` (main.js lines 176-184): removes the document
click listener, the document keydown listener and the toggle click listener,
in that order.  (The guards `if (this._dropdownClickListener)` and
`if (this._escapeKeyListener)` are always true once setup ran, since the
properties are set at registration time and never cleared.) -/
def cleanupDropdown (s : List Listener) : List Listener :=
  removeEventListener ⟨.toggle, "click", .toggleClick, true⟩
    (removeEventListener ⟨.doc, "keydown", .escapeKey, true⟩
      (removeEventListener ⟨.doc, "click", .docClick, true⟩ s))

/-! ### Initialization retry loop

`tryInitialize` (main.js lines 54-78, first document): each attempt
increments `attempts`, re-queries `.profile-dropdown` and, when the container
is present, calls `initializeProfileDropdown()`.  That function, when the
toggle button or menu panel is missing, logs an error and `return`s — it does
not throw — so the `catch` branch (which alone schedules a retry after
`attempts * 200` ms, while `attempts < 5`) can only run if the body throws.
The page environment is modelled by two presence schedules indexed by the
attempt number (attempt `i` queries `container i` / `children i`); the
`DOMContentLoaded` guard queries the container at index 0 and schedules the
first attempt after 100 ms. -/

/-- Result of one guarded attempt body: the body either completes normally
(having bound handlers or not) or throws. -/
inductive BodyResult where
  | completed (bound : Bool)
  | threw
deriving DecidableEq, Repr

/-- Embeds `initializeProfileDropdown` (main.js lines 85-99) at the level of
control flow: when the container or a required child element is missing it
returns normally without binding anything (lines 96-99, an early `return`,
not a `throw`); otherwise it binds the handlers and returns.  It returns
whether handlers were bound; in no case does it throw. -/
def initializeProfileDropdown (containerPresent childrenPresent : Bool) : BodyResult :=
  if containerPresent && childrenPresent then .completed true else .completed false

/-- The `try` block of `tryInitialize` (main.js lines 58-66) at attempt `i`:
re-query the container; when present run `initializeProfileDropdown`, when
absent log and fall through (no binding, no throw). -/
def attemptBody (container children : Nat → Bool) (i : Nat) : BodyResult :=
  if container i then initializeProfileDropdown (container i) (children i)
  else .completed false

/-- The trace of the retry loop: attempts actually run, whether any attempt
bound the handlers, the retry delays scheduled by the `catch` branch, and
whether an error escaped the loop. -/
structure InitTrace where
  attemptsMade : Nat
  bound : Bool
  retryDelays : List Nat
  errorEscaped : Bool
deriving DecidableEq, Repr

/-- Embeds the recursion of `tryInitialize` (main.js lines 54-75):
`attempts` is the value of the counter before the attempt runs (so the
attempt runs with counter `attempts + 1`), and `fuel` bounds the recursion
depth (the loop itself stops retrying once the counter reaches
`maxAttempts = 5`, so any `fuel ≥ 5` is enough). -/
def tryInitializeLoop (container children : Nat → Bool) :
    Nat → Nat → InitTrace
  | _, 0 => ⟨0, false, [], false⟩
  | attempts, fuel + 1 =>
      let a := attempts + 1
      match attemptBody container children a with
      | .completed b => ⟨1, b, [], false⟩
      | .threw =>
          if a < 5 then
            let t := tryInitializeLoop container children a fuel
            ⟨t.attemptsMade + 1, t.bound, a * 200 :: t.retryDelays, t.errorEscaped⟩
          else ⟨1, false, [], false⟩

/-- Embeds the `DOMContentLoaded` wiring (main.js lines 43-82, first
document): if `.profile-dropdown` is absent at load time, skip entirely;
otherwise schedule `tryInitialize` after an initial 100 ms delay.  Returns
the initial delay together with the loop trace, or `none` when skipped. -/
def initializeOnLoad (container children : Nat → Bool) :
    Option (Nat × InitTrace) :=
  if container 0 then some (100, tryInitializeLoop container children 0 5)
  else none

/-! ### Validators

`validateEmail` (main.js lines 25-28) is `/^[^\s@]+@[^\s@]+\.[^\s@]+$/.test`
and `validateMobile` (lines 30-33) is `/^[0-9]{10,12}$/.test`.  Both regexes
are built from character classes, literal characters, one-or-more repetition
of a class, and (for `{10,12}`) bounded repetition.  They are embedded with a
small regex AST carrying exactly these constructs and a Brzozowski-derivative
matcher; `RegexMatches` is the standard inductive match semantics and
`rmatch` is proved equivalent to it, so `test` (anchored whole-string match)
is `rmatch` on the string's characters. -/

/-- The character set of the JavaScript regex class `\s` (ECMA-262
WhiteSpace ∪ LineTerminator). -/
def jsSpace (c : Char) : Bool :=
  c == '\t' || c == '\n' || c == '\x0b' || c == '\x0c' || c == '\r' || c == ' '
    || c == ' ' || c == ' '
    || (0x2000 ≤ c.toNat && c.toNat ≤ 0x200a)
    || c == ' ' || c == ' ' || c == ' ' || c == ' '
    || c == '　' || c == '﻿'

/-- Regex AST over the constructs the two source regexes use: the empty
language, the empty string, a character class, one-or-more repetition of a
character class (`[...]+`), concatenation, and alternation. -/
inductive Regex where
  | emp : Regex
  | eps : Regex
  | cls (p : Char → Bool) : Regex
  | plusCls (p : Char → Bool) : Regex
  | seq (r₁ r₂ : Regex) : Regex
  | alt (r₁ r₂ : Regex) : Regex

/-- Match semantics of the regex AST. -/
inductive RegexMatches : Regex → List Char → Prop where
  | eps : RegexMatches .eps []
  | cls {p : Char → Bool} {c : Char} : p c = true → RegexMatches (.cls p) [c]
  | plusOne {p : Char → Bool} {c : Char} : p c = true → RegexMatches (.plusCls p) [c]
  | plusCons {p : Char → Bool} {c : Char} {s : List Char} :
      p c = true → RegexMatches (.plusCls p) s → RegexMatches (.plusCls p) (c :: s)
  | seq {r₁ r₂ : Regex} {s₁ s₂ : List Char} :
      RegexMatches r₁ s₁ → RegexMatches r₂ s₂ → RegexMatches (.seq r₁ r₂) (s₁ ++ s₂)
  | altL {r₁ r₂ : Regex} {s : List Char} :
      RegexMatches r₁ s → RegexMatches (.alt r₁ r₂) s
  | altR {r₁ r₂ : Regex} {s : List Char} :
      RegexMatches r₂ s → RegexMatches (.alt r₁ r₂) s

/-- Does the regex accept the empty string? -/
def nullable : Regex → Bool
  | .emp => false
  | .eps => true
  | .cls _ => false
  | .plusCls _ => false
  | .seq r₁ r₂ => nullable r₁ && nullable r₂
  | .alt r₁ r₂ => nullable r₁ || nullable r₂

/-- Brzozowski derivative of the regex with respect to one character. -/
def deriv : Regex → Char → Regex
  | .emp, _ => .emp
  | .eps, _ => .emp
  | .cls p, c => if p c then .eps else .emp
  | .plusCls p, c => if p c then .alt .eps (.plusCls p) else .emp
  | .seq r₁ r₂, c =>
      if nullable r₁ then .alt (.seq (deriv r₁ c) r₂) (deriv r₂ c)
      else .seq (deriv r₁ c) r₂
  | .alt r₁ r₂, c => .alt (deriv r₁ c) (deriv r₂ c)

/-- Executable anchored matcher: repeated derivatives, then nullability.  This
is the semantics of JavaScript `regex.test` for a `^...$`-anchored regex. -/
def rmatch (r : Regex) : List Char → Bool
  | [] => nullable r
  | c :: s => rmatch (deriv r c) s

/-- The class `[^\s@]` of the email regex: any character that is neither
JavaScript whitespace nor `@`. -/
def atomChar (c : Char) : Bool :=
  !jsSpace c && !(c == '@')

/-- The regex `^[^\s@]+@[^\s@]+\.[^\s@]+$` of `validateEmail` (main.js line
26), as an AST: one-or-more atom characters, literal `@`, one-or-more atom
characters, literal `.`, one-or-more atom characters, anchored at both ends
(anchoring is the whole-list match of `rmatch`). -/
def emailRegex : Regex :=
  .seq (.plusCls atomChar)
    (.seq (.cls (fun c => c == '@'))
      (.seq (.plusCls atomChar)
        (.seq (.cls (fun c => c == '.')) (.plusCls atomChar))))

/-- Embeds `validateEmail` (main.js lines 25-28): `emailRegex.test(email)`. -/
def validateEmail (s : String) : Bool :=
  rmatch emailRegex s.data

/-- The class `[0-9]` of the mobile regex: ASCII digits. -/
def digitChar (c : Char) : Bool :=
  decide ('0' ≤ c) && decide (c ≤ '9')

/-- `n`-fold repetition of a character class, used to expand the bounded
quantifier `{10,12}`. -/
def repCls : Nat → (Char → Bool) → Regex
  | 0, _ => .eps
  | n + 1, p => .seq (.cls p) (repCls n p)

/-- The regex `^[0-9]{10,12}$` of `validateMobile` (main.js line 31), with
the bounded quantifier `[0-9]{10,12}` expanded into the language-equal
alternation of exactly 10, 11 or 12 digits. -/
def mobileRegex : Regex :=
  .alt (repCls 10 digitChar) (.alt (repCls 11 digitChar) (repCls 12 digitChar))

/-- Embeds `validateMobile` (main.js lines 30-33): `mobileRegex.test(mobile)`. -/
def validateMobile (s : String) : Bool :=
  rmatch mobileRegex s.data

/-- The spec's wording of the email pattern, for the refinement claim: a
local part, `@`, a domain part, `.`, and a suffix, each one or more
characters that are neither whitespace nor `@`, with nothing before or
after. -/
def EmailShape (s : List Char) : Prop :=
  ∃ a b c : List Char,
    a ≠ [] ∧ b ≠ [] ∧ c ≠ []
      ∧ (∀ x ∈ a, atomChar x = true)
      ∧ (∀ x ∈ b, atomChar x = true)
      ∧ (∀ x ∈ c, atomChar x = true)
      ∧ s = a ++ '@' :: (b ++ '.' :: c)

/-- The string holds a whitespace character immediately next to an `@`. -/
def WsAdjacentAt (s : List Char) : Prop :=
  ∃ l r : List Char, ∃ w : Char,
    jsSpace w = true ∧ (s = l ++ w :: '@' :: r ∨ s = l ++ '@' :: w :: r)

/-! ### getCookie

`getCookie` (main.js lines 36-40) prepends `"; "` to `document.cookie`,
splits the result on the delimiter `"; " + name + "="` with JavaScript
`String.split` (which cuts at each leftmost non-overlapping occurrence of a
non-empty separator), and only when the split yields exactly two parts
returns the last part cut before its first `;`; otherwise the function falls
through and returns `undefined`.  Strings are modelled as their character
lists; `isPre`, `splitFirst` and `splitOnList` embed the `String.split`
primitive. -/

/-- Whether the first list is an initial segment of the second (the
occurrence test `String.split` performs at each position). -/
def isPre : List Char → List Char → Bool
  | [], _ => true
  | _ :: _, [] => false
  | a :: as, b :: bs => a == b && isPre as bs

/-- The leftmost occurrence of `sep` in a list: `some (pre, post)` returns
the part before the occurrence and the part after it, `none` when `sep` does
not occur. -/
def splitFirst (sep : List Char) : List Char → Option (List Char × List Char)
  | [] => if isPre sep [] then some ([], []) else none
  | c :: s =>
      if isPre sep (c :: s) then some ([], (c :: s).drop sep.length)
      else
        match splitFirst sep s with
        | some (pre, post) => some (c :: pre, post)
        | none => none

/-- Worker for `splitOnList`, with a fuel bound on the number of cuts (any
fuel above the list length is enough, since each cut strictly shrinks the
remainder when the separator is non-empty). -/
def splitOnAux (sep : List Char) : Nat → List Char → List (List Char)
  | 0, s => [s]
  | fuel + 1, s =>
      match splitFirst sep s with
      | none => [s]
      | some (pre, post) => pre :: splitOnAux sep fuel post

/-- JavaScript `String.split` with a non-empty string separator: the pieces
between the leftmost non-overlapping occurrences of `sep`.  (The script only
splits on the non-empty separators `"; " + name + "="` and `";"`.) -/
def splitOnList (sep s : List Char) : List (List Char) :=
  if sep = [] then [s] else splitOnAux sep (s.length + 1) s

/-- The number of positions of `s` at which `sep` starts, counting every
position (for the separators in play no two occurrences can overlap). -/
def occCount (sep : List Char) : List Char → Nat
  | [] => if isPre sep [] then 1 else 0
  | c :: s => (if isPre sep (c :: s) then 1 else 0) + occCount sep s

/-- `sep` never occurs strictly inside one of its own occurrences: at no
offset `k` with `1 ≤ k < sep.length` into a list that starts with `sep` does
`sep` start again. -/
def NoSelfOverlap (sep : List Char) : Prop :=
  ∀ t, isPre sep t = true → ∀ k, 1 ≤ k → k < sep.length → isPre sep (t.drop k) = false

/-- Embeds `getCookie` (main.js lines 36-40) on character lists:
`value = "; " + cookie`, `parts = value.split("; " + name + "=")`, and when
`parts.length === 2` the result is `parts.pop().split(';').shift()` — the
last part cut before its first `;`; otherwise the function returns
`undefined` (modelled as `none`). -/
def getCookieList (name cookie : List Char) : Option (List Char) :=
  let value := ';' :: ' ' :: cookie
  let sep := ';' :: ' ' :: (name ++ ['='])
  let parts := splitOnList sep value
  if parts.length = 2 then
    some ((splitOnList [';'] (parts.getLastD [])).headD [])
  else none

/-- `getCookie` on strings. -/
def getCookie (name cookie : String) : Option String :=
  (getCookieList name.data cookie.data).map (fun l => ⟨l⟩)

end BazaarHub

namespace BazaarHub

theorem matches_nil_of_nullable : ∀ {r : Regex}, nullable r = true → RegexMatches r []
  | .eps, _ => .eps
  | .seq r₁ r₂, h => by
      rw [nullable, Bool.and_eq_true] at h
      have hm := RegexMatches.seq
        (matches_nil_of_nullable h.1) (matches_nil_of_nullable h.2)
      exact hm
  | .alt r₁ r₂, h => by
      rw [nullable, Bool.or_eq_true] at h
      cases h with
      | inl h => exact .altL (matches_nil_of_nullable h)
      | inr h => exact .altR (matches_nil_of_nullable h)

theorem nullable_of_matches_nil {r : Regex} {s : List Char}
    (h : RegexMatches r s) (hs : s = []) : nullable r = true := by
  induction h with
  | eps => rfl
  | cls _ => simp at hs
  | plusOne _ => simp at hs
  | plusCons _ _ => simp at hs
  | seq _ _ ih₁ ih₂ =>
      rcases List.append_eq_nil.mp hs with ⟨h₁, h₂⟩
      simp [nullable, ih₁ h₁, ih₂ h₂]
  | altL _ ih => simp [nullable, ih hs]
  | altR _ ih => simp [nullable, ih hs]

theorem deriv_sound :
    ∀ (r : Regex) (c : Char) (s : List Char),
      RegexMatches (deriv r c) s → RegexMatches r (c :: s)
  | .emp, _, _, h => by cases h
  | .eps, _, _, h => by cases h
  | .cls p, c, s, h => by
      rw [deriv] at h
      by_cases hp : p c = true
      · rw [if_pos hp] at h
        cases h
        exact .cls hp
      · rw [if_neg hp] at h
        cases h
  | .plusCls p, c, s, h => by
      rw [deriv] at h
      by_cases hp : p c = true
      · rw [if_pos hp] at h
        cases h with
        | altL h => cases h; exact .plusOne hp
        | altR h => exact .plusCons hp h
      · rw [if_neg hp] at h
        cases h
  | .seq r₁ r₂, c, s, h => by
      rw [deriv] at h
      by_cases hn : nullable r₁ = true
      · rw [if_pos hn] at h
        cases h with
        | altL h =>
            cases h with
            | seq h₁ h₂ =>
                exact List.cons_append _ _ _ ▸
                  RegexMatches.seq (deriv_sound r₁ c _ h₁) h₂
        | altR h =>
            exact RegexMatches.seq (matches_nil_of_nullable hn)
              (deriv_sound r₂ c _ h)
      · rw [if_neg hn] at h
        cases h with
        | seq h₁ h₂ =>
            exact List.cons_append _ _ _ ▸
              RegexMatches.seq (deriv_sound r₁ c _ h₁) h₂
  | .alt r₁ r₂, c, s, h => by
      cases h with
      | altL h => exact .altL (deriv_sound r₁ c s h)
      | altR h => exact .altR (deriv_sound r₂ c s h)

theorem seq_inv {r₁ r₂ : Regex} {s : List Char} (h : RegexMatches (.seq r₁ r₂) s) :
    ∃ s₁ s₂, s = s₁ ++ s₂ ∧ RegexMatches r₁ s₁ ∧ RegexMatches r₂ s₂ := by
  cases h with
  | seq h₁ h₂ => exact ⟨_, _, rfl, h₁, h₂⟩

theorem deriv_complete :
    ∀ (r : Regex) (c : Char) (s : List Char),
      RegexMatches r (c :: s) → RegexMatches (deriv r c) s
  | .emp, _, _, h => by cases h
  | .eps, _, _, h => by cases h
  | .cls p, c, s, h => by
      cases h with
      | cls hp =>
          rw [deriv, if_pos hp]
          exact .eps
  | .plusCls p, c, s, h => by
      cases h with
      | plusOne hp =>
          rw [deriv, if_pos hp]
          exact .altL .eps
      | plusCons hp h' =>
          rw [deriv, if_pos hp]
          exact .altR h'
  | .seq r₁ r₂, c, s, h => by
      rcases seq_inv h with ⟨s₁, s₂, heq, h₁, h₂⟩
      rw [deriv]
      match s₁, heq, h₁ with
      | [], heq, h₁ =>
          have hs₂ : s₂ = c :: s := by simpa using heq.symm
          rw [if_pos (nullable_of_matches_nil h₁ rfl)]
          exact .altR (deriv_complete r₂ c s (hs₂ ▸ h₂))
      | a :: t, heq, h₁ =>
          rw [List.cons_append] at heq
          injection heq with hc ht
          subst hc
          have hm : RegexMatches (.seq (deriv r₁ c) r₂) (t ++ s₂) :=
            RegexMatches.seq (deriv_complete r₁ c t h₁) h₂
          by_cases hn : nullable r₁ = true
          · rw [if_pos hn]
            exact ht ▸ .altL hm
          · rw [if_neg hn]
            exact ht ▸ hm
  | .alt r₁ r₂, c, s, h => by
      cases h with
      | altL h => exact .altL (deriv_complete r₁ c s h)
      | altR h => exact .altR (deriv_complete r₂ c s h)

theorem rmatch_iff_matches :
    ∀ (s : List Char) (r : Regex), rmatch r s = true ↔ RegexMatches r s
  | [], r => by
      rw [rmatch]
      exact ⟨matches_nil_of_nullable, fun h => nullable_of_matches_nil h rfl⟩
  | c :: s, r => by
      rw [rmatch]
      exact (rmatch_iff_matches s (deriv r c)).trans
        ⟨deriv_sound r c s, deriv_complete r c s⟩


theorem cls_inv {p : Char → Bool} {s : List Char} (h : RegexMatches (.cls p) s) :
    ∃ c, s = [c] ∧ p c = true := by
  cases h with
  | cls hp => exact ⟨_, rfl, hp⟩

theorem plusCls_matches {p : Char → Bool} :
    ∀ (s : List Char), RegexMatches (.plusCls p) s → s ≠ [] ∧ ∀ c ∈ s, p c = true
  | [], h => by cases h
  | c :: s, h => by
      cases h with
      | plusOne hp => exact ⟨by simp, by simpa using hp⟩
      | plusCons hp h' =>
          rcases plusCls_matches s h' with ⟨-, hall⟩
          refine ⟨by simp, ?_⟩
          intro x hx
          rcases List.mem_cons.mp hx with hx | hx
          · exact hx ▸ hp
          · exact hall x hx

theorem plusCls_of_all {p : Char → Bool} :
    ∀ (s : List Char), s ≠ [] → (∀ c ∈ s, p c = true) → RegexMatches (.plusCls p) s
  | [], h, _ => absurd rfl h
  | [c], _, hall => .plusOne (hall c (by simp))
  | c :: d :: s, _, hall =>
      .plusCons (hall c (by simp))
        (plusCls_of_all (d :: s) (by simp)
          (fun x hx => hall x (List.mem_cons_of_mem c hx)))

theorem repCls_matches_iff {p : Char → Bool} :
    ∀ (n : Nat) (s : List Char),
      RegexMatches (repCls n p) s ↔ s.length = n ∧ ∀ c ∈ s, p c = true
  | 0, s => by
      constructor
      · intro h
        rw [repCls] at h
        cases h
        simp
      · rintro ⟨hl, -⟩
        rw [List.length_eq_zero] at hl
        subst hl
        rw [repCls]
        exact .eps
  | n + 1, s => by
      constructor
      · intro h
        rw [repCls] at h
        rcases seq_inv h with ⟨s₁, s₂, heq, h₁, h₂⟩
        rcases cls_inv h₁ with ⟨c, hc, hpc⟩
        rcases (repCls_matches_iff n s₂).mp h₂ with ⟨hl, hall⟩
        subst hc
        subst heq
        refine ⟨by simp [hl], ?_⟩
        intro x hx
        rcases List.mem_cons.mp (by simpa using hx) with hx' | hx'
        · exact hx' ▸ hpc
        · exact hall x hx'
      · rintro ⟨hl, hall⟩
        match s, hl with
        | c :: t, hl =>
            have hlt : t.length = n := by simpa using hl
            have hm : RegexMatches (.seq (.cls p) (repCls n p)) ([c] ++ t) :=
              RegexMatches.seq (.cls (hall c (by simp)))
                ((repCls_matches_iff n t).mpr
                  ⟨hlt, fun x hx => hall x (List.mem_cons_of_mem c hx)⟩)
            rw [repCls]
            simpa using hm

theorem validateEmail_iff_shape (s : String) :
    validateEmail s = true ↔ EmailShape s.data := by
  rw [validateEmail, rmatch_iff_matches]
  constructor
  · intro h
    rcases seq_inv h with ⟨a, rest₁, heq₁, ha, h₁⟩
    rcases seq_inv h₁ with ⟨sat, rest₂, heq₂, hat, h₂⟩
    rcases seq_inv h₂ with ⟨b, rest₃, heq₃, hb, h₃⟩
    rcases seq_inv h₃ with ⟨sdot, c, heq₄, hdot, hc⟩
    rcases cls_inv hat with ⟨x, hx, hxat⟩
    rcases cls_inv hdot with ⟨y, hy, hydot⟩
    have hxe : x = '@' := by simpa using hxat
    have hye : y = '.' := by simpa using hydot
    rcases plusCls_matches a ha with ⟨hane, haall⟩
    rcases plusCls_matches b hb with ⟨hbne, hball⟩
    rcases plusCls_matches c hc with ⟨hcne, hcall⟩
    refine ⟨a, b, c, hane, hbne, hcne, haall, hball, hcall, ?_⟩
    rw [heq₁, heq₂, heq₃, heq₄, hx, hy, hxe, hye]
    simp
  · rintro ⟨a, b, c, hane, hbne, hcne, haall, hball, hcall, heq⟩
    rw [heq]
    have hsplit : a ++ '@' :: (b ++ '.' :: c)
        = a ++ (['@'] ++ (b ++ (['.'] ++ c))) := by simp
    rw [hsplit]
    exact .seq (plusCls_of_all a hane haall)
      (.seq (.cls (by simp))
        (.seq (plusCls_of_all b hbne hball)
          (.seq (.cls (by simp)) (plusCls_of_all c hcne hcall))))

theorem validateEmail_no_space (s : String) (h : validateEmail s = true) :
    ∀ x ∈ s.data, x = '@' ∨ x = '.' ∨ atomChar x = true := by
  rcases (validateEmail_iff_shape s).mp h with
    ⟨a, b, c, -, -, -, haall, hball, hcall, heq⟩
  intro x hx
  rw [heq] at hx
  simp only [List.mem_append, List.mem_cons] at hx
  rcases hx with hx | hx | hx | hx | hx
  · exact Or.inr (Or.inr (haall x hx))
  · exact Or.inl hx
  · exact Or.inr (Or.inr (hball x hx))
  · exact Or.inr (Or.inl hx)
  · exact Or.inr (Or.inr (hcall x hx))

theorem validateMobile_iff (s : String) :
    validateMobile s = true ↔
      ((s.data.length = 10 ∨ s.data.length = 11 ∨ s.data.length = 12)
        ∧ ∀ c ∈ s.data, digitChar c = true) := by
  rw [validateMobile, rmatch_iff_matches]
  constructor
  · intro h
    cases h with
    | altL h =>
        rcases (repCls_matches_iff 10 _).mp h with ⟨hl, hall⟩
        exact ⟨Or.inl hl, hall⟩
    | altR h =>
        cases h with
        | altL h =>
            rcases (repCls_matches_iff 11 _).mp h with ⟨hl, hall⟩
            exact ⟨Or.inr (Or.inl hl), hall⟩
        | altR h =>
            rcases (repCls_matches_iff 12 _).mp h with ⟨hl, hall⟩
            exact ⟨Or.inr (Or.inr hl), hall⟩
  · rintro ⟨hl | hl | hl, hall⟩
    · exact .altL ((repCls_matches_iff 10 _).mpr ⟨hl, hall⟩)
    · exact .altR (.altL ((repCls_matches_iff 11 _).mpr ⟨hl, hall⟩))
    · exact .altR (.altR ((repCls_matches_iff 12 _).mpr ⟨hl, hall⟩))

theorem isPre_nil_iff (sep : List Char) : isPre sep [] = true ↔ sep = [] := by
  cases sep <;> simp [isPre]

theorem isPre_iff_append : ∀ (a b : List Char), isPre a b = true ↔ ∃ t, b = a ++ t
  | [], b => by simp [isPre]
  | x :: xs, [] => by simp [isPre]
  | x :: xs, y :: ys => by
      rw [isPre, Bool.and_eq_true, beq_iff_eq]
      constructor
      · rintro ⟨rfl, h⟩
        rcases (isPre_iff_append xs ys).mp h with ⟨t, rfl⟩
        exact ⟨t, rfl⟩
      · rintro ⟨t, ht⟩
        rw [List.cons_append] at ht
        injection ht with h1 h2
        exact ⟨h1.symm, (isPre_iff_append xs ys).mpr ⟨t, h2⟩⟩

theorem isPre_nil_of_ne {sep : List Char} (hsep : sep ≠ []) : isPre sep [] = false := by
  cases sep with
  | nil => exact absurd rfl hsep
  | cons a as => rfl

theorem splitFirst_post_lt {sep : List Char} (hsep : sep ≠ []) :
    ∀ (s pre post : List Char), splitFirst sep s = some (pre, post) →
      post.length < s.length
  | [], pre, post, h => by
      rw [splitFirst] at h
      simp [isPre_nil_of_ne hsep] at h
  | c :: s, pre, post, h => by
      rw [splitFirst] at h
      by_cases h0 : isPre sep (c :: s) = true
      · rw [if_pos h0] at h
        obtain ⟨rfl, rfl⟩ : pre = [] ∧ post = (c :: s).drop sep.length := by
          simpa [eq_comm, And.comm] using h
        have h1 : 1 ≤ sep.length := List.length_pos.mpr hsep
        rw [List.length_drop]
        simp only [List.length_cons]
        omega
      · rw [if_neg h0] at h
        cases h2 : splitFirst sep s with
        | none => rw [h2] at h; cases h
        | some pq =>
            obtain ⟨p, q⟩ := pq
            rw [h2] at h
            obtain ⟨rfl, rfl⟩ : pre = c :: p ∧ post = q := by
              simpa [eq_comm, And.comm] using h
            have := splitFirst_post_lt hsep s p post h2
            simp only [List.length_cons]
            omega

theorem splitFirst_none_iff {sep : List Char} (hsep : sep ≠ []) :
    ∀ (s : List Char), splitFirst sep s = none ↔ occCount sep s = 0
  | [] => by
      rw [splitFirst, occCount]
      simp [isPre_nil_of_ne hsep]
  | c :: s => by
      rw [splitFirst, occCount]
      by_cases h0 : isPre sep (c :: s) = true
      · simp [h0]
      · rw [if_neg h0, if_neg h0]
        have hiff := splitFirst_none_iff hsep s
        cases h2 : splitFirst sep s with
        | none => simp [hiff.mp h2]
        | some pq =>
            obtain ⟨p, q⟩ := pq
            have hne : occCount sep s ≠ 0 := fun hc => by
              rw [← hiff] at hc
              rw [hc] at h2
              cases h2
            simp [hne]

theorem splitOnAux_congr {sep : List Char} (hsep : sep ≠ []) :
    ∀ (f₁ f₂ : Nat) (s : List Char), s.length < f₁ → s.length < f₂ →
      splitOnAux sep f₁ s = splitOnAux sep f₂ s
  | 0, _, s, h1, _ => absurd h1 (by omega)
  | _ + 1, 0, s, _, h2 => absurd h2 (by omega)
  | f₁ + 1, f₂ + 1, s, h1, h2 => by
      rw [splitOnAux, splitOnAux]
      cases h : splitFirst sep s with
      | none => rfl
      | some pq =>
          obtain ⟨pre, post⟩ := pq
          have hlt := splitFirst_post_lt hsep s pre post h
          show pre :: splitOnAux sep f₁ post = pre :: splitOnAux sep f₂ post
          congr 1
          exact splitOnAux_congr hsep f₁ f₂ post (by omega) (by omega)

theorem splitOnList_eq {sep : List Char} (hsep : sep ≠ []) (s : List Char) :
    splitOnList sep s =
      match splitFirst sep s with
      | none => [s]
      | some (pre, post) => pre :: splitOnList sep post := by
  rw [splitOnList, if_neg hsep, splitOnAux]
  cases h : splitFirst sep s with
  | none => rfl
  | some pq =>
      obtain ⟨pre, post⟩ := pq
      have hlt := splitFirst_post_lt hsep s pre post h
      show pre :: splitOnAux sep s.length post = pre :: splitOnList sep post
      rw [splitOnList, if_neg hsep]
      congr 1
      exact splitOnAux_congr hsep s.length (post.length + 1) post (by omega) (by omega)

theorem splitOnList_ne_nil (sep s : List Char) : splitOnList sep s ≠ [] := by
  rw [splitOnList]
  by_cases hsep : sep = []
  · simp [hsep]
  · rw [if_neg hsep, splitOnAux]
    cases h : splitFirst sep s with
    | none => simp
    | some pq => obtain ⟨pre, post⟩ := pq; simp

theorem cookie_sep_no_overlap {nm : List Char} (hsemi : ';' ∉ nm) :
    NoSelfOverlap (';' :: ' ' :: (nm ++ ['='])) := by
  intro t h0 k hk1 hk2
  by_contra hcon
  rw [Bool.not_eq_false] at hcon
  rcases (isPre_iff_append _ t).mp h0 with ⟨rest, rfl⟩
  have hklen : k ≤ (';' :: ' ' :: (nm ++ ['='])).length := by omega
  have hdrop : ((';' :: ' ' :: (nm ++ ['='])) ++ rest).drop k
      = (';' :: ' ' :: (nm ++ ['='])).drop k ++ rest := by
    rw [List.drop_append_eq_append_drop]
    have hz : k - (';' :: ' ' :: (nm ++ ['='])).length = 0 := by omega
    rw [hz, List.drop_zero]
  rw [hdrop] at hcon
  have hlen : ((';' :: ' ' :: (nm ++ ['='])).drop k).length ≠ 0 := by
    rw [List.length_drop]
    omega
  have hne : (';' :: ' ' :: (nm ++ ['='])).drop k ≠ [] := by
    intro hh
    exact hlen (by rw [hh]; rfl)
  obtain ⟨d, ds, hdds⟩ := List.exists_cons_of_ne_nil hne
  rw [hdds, List.cons_append] at hcon
  have hd : d = ';' := by
    rw [isPre, Bool.and_eq_true, beq_iff_eq] at hcon
    exact hcon.1.symm
  have hmem : d ∈ (';' :: ' ' :: (nm ++ ['='])).drop 1 := by
    have hin : d ∈ (';' :: ' ' :: (nm ++ ['='])).drop k := by
      rw [hdds]
      exact List.mem_cons_self d ds
    have h21 : (';' :: ' ' :: (nm ++ ['='])).drop k
        = ((';' :: ' ' :: (nm ++ ['='])).drop 1).drop (k - 1) := by
      rw [List.drop_drop]
      congr 1
      omega
    rw [h21] at hin
    exact List.drop_subset _ _ hin
  rw [hd] at hmem
  have hmem' : (';' : Char) ∈ ' ' :: (nm ++ ['=']) := by simpa using hmem
  rcases List.mem_cons.mp hmem' with h | h
  · exact absurd h (by decide)
  · rcases List.mem_append.mp h with h | h
    · exact hsemi h
    · exact absurd (List.mem_singleton.mp h) (by decide)

theorem occCount_drop_of_no_occ {sep : List Char} :
    ∀ (m : Nat) (u : List Char), (∀ j, j < m → isPre sep (u.drop j) = false) →
      occCount sep u = occCount sep (u.drop m)
  | 0, u, _ => by simp
  | m + 1, u, h => by
      cases u with
      | nil => simp
      | cons c u' =>
          have h0 : isPre sep (c :: u') = false := by simpa using h 0 (by omega)
          rw [occCount, h0]
          have htail := occCount_drop_of_no_occ m u'
            (fun j hj => by simpa using h (j + 1) (by omega))
          simpa using htail

theorem occCount_splitFirst {sep : List Char} (hsep : sep ≠ [])
    (hov : NoSelfOverlap sep) :
    ∀ (s pre post : List Char), splitFirst sep s = some (pre, post) →
      occCount sep s = 1 + occCount sep post
  | [], pre, post, h => by
      rw [splitFirst] at h
      simp [isPre_nil_of_ne hsep] at h
  | c :: s, pre, post, h => by
      rw [splitFirst] at h
      by_cases h0 : isPre sep (c :: s) = true
      · rw [if_pos h0] at h
        obtain ⟨rfl, rfl⟩ : pre = [] ∧ post = (c :: s).drop sep.length := by
          simpa [eq_comm, And.comm] using h
        rw [occCount, if_pos h0]
        have hlen : 1 ≤ sep.length := List.length_pos.mpr hsep
        obtain ⟨L, hL⟩ : ∃ L, sep.length = L + 1 := ⟨sep.length - 1, by omega⟩
        have hdrop : (c :: s).drop sep.length = s.drop L := by
          rw [hL]
          rfl
        have hno : ∀ j, j < L → isPre sep (s.drop j) = false := by
          intro j hj
          have hk := hov (c :: s) h0 (j + 1) (by omega) (by omega)
          simpa using hk
        rw [hdrop, ← occCount_drop_of_no_occ L s hno]
      · rw [if_neg h0] at h
        cases h2 : splitFirst sep s with
        | none => rw [h2] at h; cases h
        | some pq =>
            obtain ⟨p, q⟩ := pq
            rw [h2] at h
            obtain ⟨rfl, rfl⟩ : pre = c :: p ∧ post = q := by
              simpa [eq_comm, And.comm] using h
            have := occCount_splitFirst hsep hov s p post h2
            rw [occCount, if_neg h0, this]
            omega

theorem splitOn_two_iff_occ_one {sep : List Char} (hsep : sep ≠ [])
    (hov : NoSelfOverlap sep) (v : List Char) :
    (splitOnList sep v).length = 2 ↔ occCount sep v = 1 := by
  rw [splitOnList_eq hsep]
  cases h : splitFirst sep v with
  | none =>
      have h0 := (splitFirst_none_iff hsep v).mp h
      simp [h0]
  | some pq =>
      obtain ⟨pre, post⟩ := pq
      have hocc := occCount_splitFirst hsep hov v pre post h
      rw [hocc]
      show (pre :: splitOnList sep post).length = 2 ↔ 1 + occCount sep post = 1
      rw [splitOnList_eq hsep]
      cases h2 : splitFirst sep post with
      | none =>
          have h20 := (splitFirst_none_iff hsep post).mp h2
          simp [h20]
      | some pq2 =>
          obtain ⟨p2, q2⟩ := pq2
          have h2ne : occCount sep post ≠ 0 := fun hc => by
            rw [← splitFirst_none_iff hsep post] at hc
            rw [hc] at h2
            cases h2
          have hnil := splitOnList_ne_nil sep q2
          have hpos : 1 ≤ (splitOnList sep q2).length := List.length_pos.mpr hnil
          constructor
          · intro hlen
            simp only [List.length_cons] at hlen
            omega
          · intro hone
            omega

theorem getCookieList_isSome_iff (name cookie : List Char) (hsemi : ';' ∉ name) :
    (getCookieList name cookie).isSome = true ↔
      occCount (';' :: ' ' :: (name ++ ['=']))
        (';' :: ' ' :: cookie) = 1 := by
  have hsep : (';' :: ' ' :: (name ++ ['=']) : List Char) ≠ [] := by simp
  have key := splitOn_two_iff_occ_one hsep (cookie_sep_no_overlap hsemi)
    (';' :: ' ' :: cookie)
  rw [getCookieList]
  by_cases hh :
      (splitOnList (';' :: ' ' :: (name ++ ['='])) (';' :: ' ' :: cookie)).length = 2
  · simp only [hh, if_pos rfl, if_true]
    simp [key.mp hh]
  · have hno : occCount (';' :: ' ' :: (name ++ ['='])) (';' :: ' ' :: cookie) ≠ 1 :=
      fun hc => hh (key.mpr hc)
    simp [hh, hno]

/-- Claim C1: the dropdown toggle is claimed to be an involution on the
container's open marker — from the closed state one activation adds the
marker and a second removes it.  The code violates this: `handleToggleClick`
decides open-ness by the menu's `show` class, which nothing in this script
ever sets, while the marker it mutates is `dropdown-open` on the container.
Starting from the fully closed state (no `dropdown-open` on the container, no
`show` on the menu) both activations take the `showDropdown` branch, so after
two activations the open marker is present, not restored to absent. -/
theorem toggle_twice_from_closed_stays_open :
    (handleToggleClick (handleToggleClick ⟨false, false⟩)).containerOpen = true
      ∧ handleToggleClick (handleToggleClick ⟨false, false⟩) ≠ (⟨false, false⟩ : DropdownState) := by
  constructor
  · rfl
  · decide

/-- Claim C5: an outside click (target inside neither the toggle nor the menu)
or an Escape keypress maps open to closed and leaves closed unchanged, and
neither event ever opens the dropdown.  The exact effect on the container
marker: an outside click always clears it, any document click leaves it set
only if it was set, Escape clears it exactly when the key is `"Escape"`, and
neither handler touches the menu's `show` class. -/
theorem close_only_events_spec (s : DropdownState) (targetInMenu targetInToggle : Bool)
    (key : String) :
    (handleDocumentClick false false s).containerOpen = false
      ∧ (handleEscapeKey "Escape" s).containerOpen = false
      ∧ ((handleDocumentClick targetInMenu targetInToggle s).containerOpen = true →
          s.containerOpen = true)
      ∧ ((handleEscapeKey key s).containerOpen = true → s.containerOpen = true)
      ∧ (handleDocumentClick targetInMenu targetInToggle s).menuShow = s.menuShow
      ∧ (handleEscapeKey key s).menuShow = s.menuShow := by
  refine ⟨rfl, ?_, ?_, ?_, ?_, ?_⟩
  · cases hs : s.containerOpen <;> simp [handleEscapeKey, hideDropdown, hs]
  · cases targetInMenu <;> cases targetInToggle <;>
      simp [handleDocumentClick, hideDropdown]
  · by_cases h : key == "Escape" <;> cases hs : s.containerOpen <;>
      simp [handleEscapeKey, hideDropdown, h, hs]
  · cases targetInMenu <;> cases targetInToggle <;>
      simp [handleDocumentClick, hideDropdown]
  · by_cases h : key == "Escape" <;> cases hs : s.containerOpen <;>
      simp [handleEscapeKey, hideDropdown, h, hs]

/-- Witness for C5 at a concrete state: the open state with an outside click
closes, and the hypothesis-bearing conjuncts are discharged at a concrete
input (a non-Escape keypress on the open state keeps the marker set). -/
theorem close_only_events_spec_witness :
    (handleDocumentClick false false ⟨true, false⟩).containerOpen = false
      ∧ ((handleEscapeKey "a" (⟨true, false⟩ : DropdownState)).containerOpen = true →
          (⟨true, false⟩ : DropdownState).containerOpen = true) :=
  ⟨(close_only_events_spec ⟨true, false⟩ false false "a").1,
   (close_only_events_spec ⟨true, false⟩ false false "a").2.2.2.1⟩

/-- Claim C2: `performLogout` sends an HTTP GET to `/logout` with same-origin
credentials; exactly when the response is OK it expires the client-held
`session_id` cookie, shows exactly one success notification and schedules
navigation to `/` after 1500 ms; on a non-OK response or network error it
shows exactly one error notification, clears no cookie and schedules no
navigation. -/
theorem performLogout_spec (o : FetchOutcome) :
    (performLogout o).request = ⟨"GET", "/logout", "same-origin"⟩
      ∧ (performLogout o).toasts.length = 1
      ∧ ((performLogout o).clearedCookies ≠ [] ↔ o = .ok)
      ∧ (o = .ok →
          (performLogout o).clearedCookies = ["session_id"]
            ∧ (performLogout o).toasts
                = [("You have been logged out successfully", "success")]
            ∧ (performLogout o).navigation = some ("/", 1500))
      ∧ (o ≠ .ok →
          (performLogout o).clearedCookies = []
            ∧ (performLogout o).toasts = [("Logout failed. Please try again.", "error")]
            ∧ (performLogout o).navigation = none) := by
  cases o <;> simp [performLogout]

/-- Witness for C2: the OK branch discharged at `FetchOutcome.ok`, the failure
branch at `FetchOutcome.httpError`. -/
theorem performLogout_spec_witness :
    ((performLogout .ok).toasts = [("You have been logged out successfully", "success")]
        ∧ (performLogout .ok).navigation = some ("/", 1500))
      ∧ ((performLogout .httpError).toasts = [("Logout failed. Please try again.", "error")]
          ∧ (performLogout .httpError).navigation = none) :=
  ⟨⟨((performLogout_spec .ok).2.2.2.1 rfl).2.1, ((performLogout_spec .ok).2.2.2.1 rfl).2.2⟩,
   ⟨((performLogout_spec .httpError).2.2.2.2 (by decide)).2.1,
    ((performLogout_spec .httpError).2.2.2.2 (by decide)).2.2⟩⟩

/-- Claim C8: one `showToast` call appends exactly one new node to the
container; the close-button handler removes exactly that node; the automatic
removal is scheduled after 5000 ms and removes the same node; and both removal
paths are idempotent — removing the node again after it is gone is a no-op. -/
theorem showToast_round_trip (c : List Nat) (n : Nat) (h : n ∉ c) :
    (showToast c n).container = c ++ [n]
      ∧ (showToast c n).container.length = c.length + 1
      ∧ removeNode (showToast c n).dismissTarget (showToast c n).container = c
      ∧ (showToast c n).timerDelay = 5000
      ∧ removeNode (showToast c n).timerTarget (showToast c n).container = c
      ∧ removeNode n (removeNode n (showToast c n).container)
          = removeNode n (showToast c n).container := by
  have herase : removeNode n (c ++ [n]) = c := by
    simp [removeNode, List.erase_append_right _ h]
  refine ⟨rfl, by simp [showToast], ?_, rfl, ?_, ?_⟩
  · simpa [showToast] using herase
  · simpa [showToast] using herase
  · show removeNode n (removeNode n (c ++ [n])) = removeNode n (c ++ [n])
    rw [herase]
    simp [removeNode, List.erase_of_not_mem h]

/-- Witness for C8 at a concrete container and a fresh node. -/
theorem showToast_round_trip_witness :
    (0 : Nat) ∉ ([5, 7] : List Nat)
      ∧ removeNode (showToast [5, 7] 0).dismissTarget (showToast [5, 7] 0).container
          = [5, 7] :=
  ⟨by decide, (showToast_round_trip [5, 7] 0 (by decide)).2.2.1⟩

/-- Claim C4 counterexample: the claim says the cleanup operation detaches
all four registered handler groups, including the menu-item handlers.  It
does not: after running `cleanupDropdown` on the freshly initialized listener
set, the logout-button and profile-link click registrations are still live
(the cleanup body only removes the document click, document keydown and
toggle click listeners). -/
theorem cleanup_leaves_menu_item_handlers :
    (⟨.logoutBtn, "click", .logoutClick, false⟩ : Listener)
        ∈ cleanupDropdown initListeners
      ∧ (⟨.profileBtn, "click", .profileClick, false⟩ : Listener)
          ∈ cleanupDropdown initListeners
      ∧ cleanupDropdown initListeners ≠ [] := by
  decide

/-- Claim C4 amended: `cleanupDropdown` detaches the toggle-click,
outside-click and escape-key handlers; the two menu-item handlers remain
registered.  Calling it again on the already-cleaned state changes nothing
and raises no error (detachment is idempotent; `removeEventListener` of an
absent listener is a no-op). -/
theorem cleanup_detaches_three_idempotently :
    cleanupDropdown initListeners
        = [⟨.logoutBtn, "click", .logoutClick, false⟩,
           ⟨.profileBtn, "click", .profileClick, false⟩]
      ∧ cleanupDropdown (cleanupDropdown initListeners) = cleanupDropdown initListeners := by
  decide

/-- Claim C3: on the failing input — child elements absent on attempt 1 and
present from attempt 2 on (so N = 2 ≤ 5), container always present — the
code makes exactly one attempt and never binds the handlers: setup returns
early instead of throwing when the children are missing, so the `catch`
branch never schedules a retry.  The claim predicts initialization succeeds
on attempt 2.  (No uncaught error escapes, and the one attempt runs after
the initial 100 ms delay.) -/
theorem init_retry_never_runs_second_attempt :
    (decide (2 ≤ 1) = false ∧ decide (2 ≤ 2) = true)
      ∧ initializeOnLoad (fun _ => true) (fun i => decide (2 ≤ i))
          = some (100, ⟨1, false, [], false⟩) := by
  decide

/-- Claim C6: `validateEmail` is false on every string with no `@` and on
every string with whitespace adjacent to an `@`; it is true on `"a@b.c"` and
false on `"a@@b.c"`; and it holds exactly of the strings of the shape
local-part `@` domain `.` suffix with each part one or more characters that
are neither whitespace nor `@`, anchored at both ends.  (It is a total Lean
function, hence total and effect-free.) -/
theorem validateEmail_spec (s : String) :
    (('@' ∉ s.data ∨ WsAdjacentAt s.data) → validateEmail s = false)
      ∧ validateEmail "a@b.c" = true
      ∧ validateEmail "a@@b.c" = false
      ∧ (validateEmail s = true ↔ EmailShape s.data) := by
  refine ⟨?_, by decide, by decide, validateEmail_iff_shape s⟩
  intro hcase
  cases hv : validateEmail s with
  | false => rfl
  | true =>
      exfalso
      cases hcase with
      | inl hno =>
          rcases (validateEmail_iff_shape s).mp hv with
            ⟨a, b, c, -, -, -, -, -, -, heq⟩
          exact hno (by rw [heq]; simp)
      | inr hws =>
          rcases hws with ⟨l, r, w, hw, hpos⟩
          have hwmem : w ∈ s.data := by
            rcases hpos with h2 | h2 <;> rw [h2] <;> simp
          rcases validateEmail_no_space s hv w hwmem with h | h | h
          · rw [h] at hw
            exact absurd hw (by decide)
          · rw [h] at hw
            exact absurd hw (by decide)
          · rw [atomChar, Bool.and_eq_true, Bool.not_eq_true'] at h
            rw [h.1] at hw
            cases hw

/-- Witness for C6: the hypothesis-bearing conjunct applied at the concrete
`@`-free string `"ab"` and at `"a @b.c"`, which has a space immediately
before its `@`. -/
theorem validateEmail_spec_witness :
    (('@' ∉ "ab".data ∨ WsAdjacentAt "ab".data) ∧ validateEmail "ab" = false)
      ∧ (('@' ∉ "a @b.c".data ∨ WsAdjacentAt "a @b.c".data)
          ∧ validateEmail "a @b.c" = false) := by
  have h1 : '@' ∉ "ab".data ∨ WsAdjacentAt "ab".data := Or.inl (by decide)
  have h2 : '@' ∉ "a @b.c".data ∨ WsAdjacentAt "a @b.c".data :=
    Or.inr ⟨['a'], ['b', '.', 'c'], ' ', by decide, Or.inl (by decide)⟩
  exact ⟨⟨h1, (validateEmail_spec "ab").1 h1⟩,
         ⟨h2, (validateEmail_spec "a @b.c").1 h2⟩⟩

/-- Claim C7: `validateMobile` is true on every all-digit string of length
10 to 12, and false on any string of length 9 or 13 and on any string with a
non-digit character.  (It is a total Lean function, hence total and
effect-free.) -/
theorem validateMobile_spec (s : String) :
    ((∀ c ∈ s.data, digitChar c = true) → 10 ≤ s.data.length →
        s.data.length ≤ 12 → validateMobile s = true)
      ∧ (s.data.length = 9 → validateMobile s = false)
      ∧ (s.data.length = 13 → validateMobile s = false)
      ∧ ((∃ c ∈ s.data, digitChar c = false) → validateMobile s = false) := by
  refine ⟨?_, ?_, ?_, ?_⟩
  · intro hall h10 h12
    exact (validateMobile_iff s).mpr ⟨by omega, hall⟩
  · intro h9
    cases hv : validateMobile s with
    | false => rfl
    | true =>
        rcases (validateMobile_iff s).mp hv with ⟨hl, -⟩
        omega
  · intro h13
    cases hv : validateMobile s with
    | false => rfl
    | true =>
        rcases (validateMobile_iff s).mp hv with ⟨hl, -⟩
        omega
  · rintro ⟨c, hc, hcd⟩
    cases hv : validateMobile s with
    | false => rfl
    | true =>
        rcases (validateMobile_iff s).mp hv with ⟨-, hall⟩
        rw [hall c hc] at hcd
        cases hcd

/-- Witness for C7: the four conjuncts applied at concrete strings — an
all-digit string of length 10, strings of length 9 and 13, and a string with
a letter in it. -/
theorem validateMobile_spec_witness :
    validateMobile "0123456789" = true
      ∧ validateMobile "012345678" = false
      ∧ validateMobile "0123456789012" = false
      ∧ validateMobile "01234a6789" = false :=
  ⟨(validateMobile_spec "0123456789").1 (by decide) (by decide) (by decide),
   (validateMobile_spec "012345678").2.1 (by decide),
   (validateMobile_spec "0123456789012").2.2.1 (by decide),
   (validateMobile_spec "01234a6789").2.2.2 ⟨'a', by decide, by decide⟩⟩

/-- Claim C10 counterexample: the claim says `getCookie` treats any cookie
whose name merely ends with the given name as an occurrence of it.  It does
not: the delimiter is `"; " + name + "="`, and the `"; "` prefix anchors the
match at a cookie-name boundary.  For the cookie string `"user_id=1"` —
whose single cookie's name `user_id` ends with the requested name `id` — the
delimiter `"; id="` occurs zero times in `"; user_id=1"` and `getCookie`
returns `undefined`, while the claim's suffix-matching reading predicts one
occurrence and the value `"1"`.  (On an exact-name cookie, `getCookie "id"
"id=7"` does return `"7"`.) -/
theorem getCookie_no_suffix_matching :
    getCookie "id" "user_id=1" = none
      ∧ occCount (';' :: ' ' :: ("id".data ++ ['=']))
          (';' :: ' ' :: "user_id=1".data) = 0
      ∧ getCookie "id" "id=7" = some "7" := by
  decide

/-- Claim C10 amended: for a name that contains no `;` (so that the
delimiter cannot overlap itself), `getCookie name cookie` returns a value
exactly when the delimiter `"; " + name + "="` occurs exactly once in
`"; " + cookie`, and returns `undefined` otherwise — in particular when the
named cookie is absent (zero occurrences) and when the name occurs twice. -/
theorem getCookie_exactly_once (name cookie : String)
    (hsemi : ';' ∉ name.data) :
    (getCookie name cookie).isSome = true ↔
      occCount (';' :: ' ' :: (name.data ++ ['=']))
        (';' :: ' ' :: cookie.data) = 1 := by
  have hbase := getCookieList_isSome_iff name.data cookie.data hsemi
  rw [getCookie]
  cases hgl : getCookieList name.data cookie.data with
  | none => simpa [hgl] using hbase
  | some v => simpa [hgl] using hbase

/-- Witness for C10: the amended theorem applied at the concrete name `"id"`
and cookie string `"id=7"`, whose delimiter occurs exactly once. -/
theorem getCookie_exactly_once_witness :
    ((';' : Char) ∉ "id".data)
      ∧ ((getCookie "id" "id=7").isSome = true ↔
          occCount (';' :: ' ' :: ("id".data ++ ['=']))
            (';' :: ' ' :: "id=7".data) = 1) :=
  ⟨by decide, getCookie_exactly_once "id" "id=7" (by decide)⟩

/-- Claim C9: `showToast` assumes the toast container exists — when no
container element is present the call fails with a lookup error it does not
handle, and when the container is present it performs its effects and raises
no error. -/
theorem showToast_requires_container (c : List Nat) (n : Nat) :
    showToastChecked none n = .error .nullLookup
      ∧ showToastChecked (some c) n = .ok (showToast c n) :=
  ⟨rfl, rfl⟩

end BazaarHub
